import Mathlib

/-!
Shallow embedding of the agent core of `gosling.py`: the transcript pruning
policy (`clean_messages`), the tool-call dispatcher (`handle_tool_calls`),
the screenshot resizing logic (`process_screenshot`), the device shell layer
(`run_shell_command`) and the agent loop (`call_llm`).

Python machine-level leaves that the source delegates to external libraries
(base64 encoding, PIL pixel transforms, XML parse/serialize for the UI-tree
reduction) are kept as explicit functional parameters bundled in `Codecs`;
everything else is translated directly from the source.
-/

namespace Gosling

/-- The apostrophe character, kept out of string literals. -/
def squote : String := String.singleton (Char.ofNat 39)

/-- Left brace as text. -/
def lbr : String := String.singleton (Char.ofNat 123)

/-- Right brace as text. -/
def rbr : String := String.singleton (Char.ofNat 125)

/-- `UI_HIERARCHY_PROMPT` from the source: the fixed marker that starts every
UI-tree text block. -/
def UI_HIERARCHY_PROMPT : String := "\nHere" ++ squote ++ "s the current UI hierarchy:\n"

/-- A JSON value appearing as a tool-call argument (the source only ever
reads integers and strings out of the decoded argument object). -/
inductive Value where
  | intV (n : Int)
  | strV (s : String)
deriving DecidableEq, Repr

/-- A decoded argument object: ordered mapping from argument name to value. -/
abbrev Args := List (String × Value)

/-- The `arguments` JSON string of a tool call, modelled at the interface of
`json.loads`: either it decodes to an argument object or decoding fails with
a `json.JSONDecodeError` carrying a message. -/
inductive ArgStr where
  | valid (m : Args)
  | invalid (msg : String)
deriving DecidableEq, Repr

/-- The `function` field of a tool call: a name and an optional raw
arguments string (`None`/absent/empty modelled as `none`). -/
structure ToolFunction where
  name : String
  arguments : Option ArgStr
deriving DecidableEq, Repr

/-- A model-issued tool call: identifier plus function. -/
structure ToolCall where
  id : String
  function : ToolFunction
deriving DecidableEq, Repr

/-- One typed content block inside a list-structured message content. -/
inductive Entry where
  | image (data : String)
  | text (s : String)
deriving DecidableEq, Repr

/-- Message content: absent (key deleted / `None`), a plain string, or a
list of typed blocks. -/
inductive Content where
  | omitted
  | str (s : String)
  | blocks (es : List Entry)
deriving DecidableEq, Repr

/-- One transcript turn (a `messages` list element). -/
structure Msg where
  role : String
  content : Content
  tool_call_id : Option String
  tool_calls : List ToolCall
deriving DecidableEq, Repr

/-- Whether the first list is a leading segment of the second. -/
def prefixOf : List Char → List Char → Bool
  | [], _ => true
  | _ :: _, [] => false
  | a :: as, b :: bs => a == b && prefixOf as bs

/-- Python `s.startswith(pat)`. -/
def pyStartsWith (s pat : String) : Bool := prefixOf pat.toList s.toList

/-- Python `s.endswith(pat)`. -/
def pyEndsWith (s pat : String) : Bool := prefixOf pat.toList.reverse s.toList.reverse

/-- Left-to-right non-overlapping replacement, with fuel bounding the number
of steps (one character is consumed per step, so the input length is enough
fuel). -/
def replaceFuel (pat rep : List Char) : Nat → List Char → List Char
  | _, [] => []
  | 0, s => s
  | n + 1, c :: rest =>
    if prefixOf pat (c :: rest) then rep ++ replaceFuel pat rep n (List.drop (pat.length - 1) rest)
    else c :: replaceFuel pat rep n rest

/-- Python `s.replace(pat, rep)` for a non-empty pattern. -/
def pyReplace (s pat rep : String) : String :=
  String.mk (replaceFuel pat.toList rep.toList s.toList.length s.toList)

/-- Splitting at every newline character, keeping empty segments. -/
def splitNlAux : List Char → List (List Char)
  | [] => [[]]
  | c :: rest =>
    if c == Char.ofNat 10 then [] :: splitNlAux rest
    else
      match splitNlAux rest with
      | [] => [[c]]
      | g :: gs => (c :: g) :: gs

/-- Python `s.split("\n")`. -/
def pySplitNl (s : String) : List String := (splitNlAux s.toList).map String.mk

/-- `should_keep` from `clean_messages`: keep a block unless it is an image
or a text block starting with the UI-tree prompt marker. -/
def should_keep (e : Entry) : Bool :=
  match e with
  | .image _ => false
  | .text s => !(pyStartsWith s UI_HIERARCHY_PROMPT)

/-- The body of `clean_messages`, walking the reversed message list with the
mutable `budget` counter made explicit: each list-structured content
decrements the budget, and once the budget is negative the list content is
filtered down to the blocks `should_keep` accepts. -/
def cleanRev : Int → List Msg → List Msg
  | _, [] => []
  | b, m :: rest =>
    match m.content with
    | .blocks es =>
      (if b - 1 < 0 then { m with content := .blocks (es.filter should_keep) } else m)
        :: cleanRev (b - 1) rest
    | _ => m :: cleanRev b rest

/-- `clean_messages`: prune heavy visual content from all but the two most
recent list-structured turns. -/
def clean_messages (messages : List Msg) : List Msg :=
  (cleanRev 2 messages.reverse).reverse

/-! ## Device transport, exceptions and the execution monad -/

/-- A failure of the underlying `adb shell` transport: the command ran and
exited non-zero (`subprocess.CalledProcessError`), or the process could not
be run at all (`OSError`). -/
inductive DevErr where
  | nonZeroExit (msg : String)
  | ioError (msg : String)
deriving DecidableEq, Repr

/-- The device: a deterministic transport mapping a shell command (the part
after the constant `adb shell` framing) to raw stdout or a failure. -/
structure Device where
  run : List String → Except DevErr String

/-- The Python exception kinds the embedded code can raise or catch. -/
inductive Exc where
  | calledProcessError (msg : String)
  | jsonDecodeError (msg : String)
  | keyError (key : String)
  | osError (msg : String)
  | typeError (msg : String)
  | indexError
  | generic (msg : String)
deriving DecidableEq, Repr

/-- `str(e)` for the exception kinds (`str` of a `KeyError` shows the quoted
key). -/
def excStr : Exc → String
  | .calledProcessError m => m
  | .jsonDecodeError m => m
  | .keyError k => squote ++ k ++ squote
  | .osError m => m
  | .typeError m => m
  | .indexError => "list index out of range"
  | .generic m => m

/-- The exception tuple of the per-call `except` clause in
`handle_tool_calls`: `(subprocess.CalledProcessError, json.JSONDecodeError,
KeyError, OSError)`. -/
def caught : Exc → Bool
  | .calledProcessError _ => true
  | .jsonDecodeError _ => true
  | .keyError _ => true
  | .osError _ => true
  | _ => false

/-- An observable effect of a dispatch: a shell command issued to the
device, or a `time.sleep` (milliseconds). -/
inductive Event where
  | cmd (c : List String)
  | sleep (ms : Nat)
deriving DecidableEq, Repr

instance exceptDecEq {ε α : Type} [DecidableEq ε] [DecidableEq α] :
    DecidableEq (Except ε α) := fun a b =>
  match a, b with
  | .error e1, .error e2 =>
    if h : e1 = e2 then .isTrue (by rw [h]) else .isFalse (by simp [h])
  | .error _, .ok _ => .isFalse (by simp)
  | .ok _, .error _ => .isFalse (by simp)
  | .ok a1, .ok a2 =>
    if h : a1 = a2 then .isTrue (by rw [h]) else .isFalse (by simp [h])

/-- Execution of a fragment of device-touching code: an exception-or-value
outcome together with the ordered trace of effects it produced. -/
abbrev ExecM (α : Type) : Type := Except Exc α × List Event

/-- Monadic return for `ExecM`. -/
def pureE {α : Type} (a : α) : ExecM α := (.ok a, [])

/-- Monadic sequencing for `ExecM`: effects concatenate; an exception
short-circuits the continuation but keeps the trace so far. -/
def bindE {α β : Type} (m : ExecM α) (f : α → ExecM β) : ExecM β :=
  match m with
  | (.ok a, ev) => match f a with | (r, ev2) => (r, ev ++ ev2)
  | (.error e, ev) => (.error e, ev)

instance : Monad ExecM where
  pure := pureE
  bind := bindE

/-- Raise a Python exception. -/
def throwE {α : Type} (e : Exc) : ExecM α := (.error e, [])

/-- `time.sleep`, recorded as an effect (milliseconds). -/
def sleepE (ms : Nat) : ExecM Unit := (.ok (), [.sleep ms])

/-- `run_shell_command`: run the command over the transport; on a non-zero
exit the `CalledProcessError` is caught and re-raised as a bare
`Exception("Command failed: ...")`; an `OSError` from starting the process
propagates untranslated. -/
def run_shell_command (dev : Device) (command : List String) : ExecM String :=
  match dev.run command with
  | .ok out => (.ok out, [.cmd command])
  | .error (.nonZeroExit m) => (.error (.generic ("Command failed: " ++ m)), [.cmd command])
  | .error (.ioError m) => (.error (.osError m), [.cmd command])

/-- The external byte-level codecs the source delegates to libraries:
base64 encoding, the PIL decode/resize/re-encode pipeline of
`process_screenshot`, and the XML parse/`clean_node`/serialize pipeline of
`clean_hierarchy`. -/
structure Codecs where
  b64encode : String → String
  process_screenshot_bytes : String → String
  clean_hierarchy : String → String

/-- `take_screenshot`: capture the screen and return the processed capture,
base64 encoded. -/
def take_screenshot (cod : Codecs) (dev : Device) : ExecM String := do
  let raw ← run_shell_command dev ["screencap", "-p"]
  pure (cod.b64encode (cod.process_screenshot_bytes raw))

/-- `get_ui_hierarchy`: dump the UI tree to a file, read it back, and
optionally reduce it. -/
def get_ui_hierarchy (cod : Codecs) (dev : Device) (clean : Bool) : ExecM String := do
  let _ ← run_shell_command dev ["uiautomator", "dump", "/sdcard/window_dump.xml"]
  let raw ← run_shell_command dev ["cat", "/sdcard/window_dump.xml"]
  pure (if clean then cod.clean_hierarchy raw else raw)

/-! ## The tool-call dispatcher -/

/-- `json.loads(function["arguments"]) if function.get("arguments") else` an
empty object. -/
def getArgs : Option ArgStr → ExecM Args
  | none => pureE []
  | some (.valid m) => pureE m
  | some (.invalid msg) => throwE (.jsonDecodeError msg)

/-- `args[k]`: raises `KeyError(k)` when the key is absent. -/
def argGet (args : Args) (k : String) : ExecM Value :=
  match args.lookup k with
  | some v => pureE v
  | none => throwE (.keyError k)

/-- `str(v)` for an argument value. -/
def valueStr : Value → String
  | .intV n => toString n
  | .strV s => s

/-- Using a value where the code calls string methods on it: a non-string
raises an (uncaught) `AttributeError`-like dynamic type failure. -/
def asStr : Value → ExecM String
  | .strV s => pureE s
  | .intV _ => throwE (.typeError "int value has no string methods")

/-- One line of `enter_text`: strip the `---` sentinel if present, sanitize
unreliable characters, inject the text, and unless the sentinel was present
sleep briefly and fire the ENTER key event. -/
def enter_line (dev : Device) (line : String) : ExecM Unit := do
  let skip_auto_submit := pyEndsWith line "---"
  let line1 := if skip_auto_submit then line.dropRight 3 else line
  let line2 := pyReplace (pyReplace (pyReplace line1 squote " ") "€" "EUR") "ö" "o"
  let _ ← run_shell_command dev ["input", "text", squote ++ line2 ++ squote]
  if !skip_auto_submit then
    let _ ← sleepE 250
    let _ ← run_shell_command dev ["input", "keyevent", "KEYCODE_ENTER"]
    pure ()
  else
    pure ()

/-- The `for line in text.split("\n")` loop of `enter_text`. -/
def enter_lines (dev : Device) : List String → ExecM Unit
  | [] => pureE ()
  | l :: rest => bindE (enter_line dev l) (fun _ => enter_lines dev rest)

/-- `json.dumps` of the screenshot-result object built in the (disabled)
`screenshot` branch. -/
def screenshot_json (b64 : String) : String :=
  lbr ++ "\"type\": \"image\", \"data\": \"" ++ b64 ++ "\", \"mime_type\": \"image/jpeg\"" ++ rbr

/-- The body of the per-call `try` block of `handle_tool_calls`: decode the
arguments, dispatch on the tool name, run the device commands and return the
status string. -/
def runCall (cod : Codecs) (dev : Device) (tc : ToolCall) : ExecM String := do
  let args ← getArgs tc.function.arguments
  let name := tc.function.name
  if name = "home" then do
    let _ ← run_shell_command dev ["input", "keyevent", "KEYCODE_HOME"]
    pure "Pressed home button"
  else if name = "click" then do
    let x ← argGet args "x"
    let y ← argGet args "y"
    let _ ← run_shell_command dev ["input", "tap", valueStr x, valueStr y]
    pure ("Clicked at coordinates (" ++ valueStr x ++ ", " ++ valueStr y ++ ")")
  else if name = "enter_text" then do
    let tv ← argGet args "text"
    let text ← asStr tv
    let _ ← enter_lines dev (pySplitNl text)
    pure ("Entered text: " ++ squote ++ text ++ squote)
  else if name = "screenshot" then do
    let b64 ← take_screenshot cod dev
    pure ("Here" ++ squote ++ "s the screenshot b64 encoded:\n" ++ screenshot_json b64)
  else if name = "start_app" then do
    let pn ← argGet args "package_name"
    let _ ← run_shell_command dev
      ["monkey", "-p", valueStr pn, "-c", "android.intent.category.LAUNCHER", "1"]
    pure ("Started app: " ++ valueStr pn)
  else if name = "select_text" then do
    let sx ← argGet args "start_x"
    let sy ← argGet args "start_y"
    let ex ← argGet args "end_x"
    let ey ← argGet args "end_y"
    let _ ← run_shell_command dev
      ["input", "swipe", valueStr sx, valueStr sy, valueStr sx, valueStr sy, "800"]
    let _ ← sleepE 500
    let _ ← run_shell_command dev
      ["input", "swipe", valueStr sx, valueStr sy, valueStr ex, valueStr ey, "300"]
    pure ("Selected text from (" ++ valueStr sx ++ ", " ++ valueStr sy ++ ") to ("
          ++ valueStr ex ++ ", " ++ valueStr ey ++ ")")
  else if name = "swipe" then do
    let sx ← argGet args "start_x"
    let sy ← argGet args "start_y"
    let ex ← argGet args "end_x"
    let ey ← argGet args "end_y"
    let dur := (args.lookup "duration").getD (.intV 300)
    let _ ← run_shell_command dev
      ["input", "swipe", valueStr sx, valueStr sy, valueStr ex, valueStr ey, valueStr dur]
    pure ("Swiped from (" ++ valueStr sx ++ ", " ++ valueStr sy ++ ") to ("
          ++ valueStr ex ++ ", " ++ valueStr ey ++ ")")
  else if name = "copy_selected" then do
    let _ ← run_shell_command dev ["input", "keyevent", "KEYCODE_COPY"]
    let clip ← run_shell_command dev ["service", "call", "clipboard", "get_clipboard"]
    pure ("Clipboard contents: " ++ clip)
  else
    pure ("Unknown tool call: " ++ name)

/-- A tool result as first accumulated: identifier plus status string. -/
structure RawResult where
  tool_call_id : String
  output : String
deriving DecidableEq, Repr

/-- A tool result as returned: identifier plus content (plain string, or
the augmented block list for the last result of a batch). -/
structure ToolResult where
  tool_call_id : String
  output : Content
deriving DecidableEq, Repr

/-- The error status recorded for a call whose exception the dispatch
boundary catches. -/
def errText (e : Exc) : String := "Error processing tool call: " ++ excStr e

/-- A raw result as it is returned when it is not the last of its batch:
the status string becomes the result content. -/
def wrapR (r : RawResult) : ToolResult := ⟨r.tool_call_id, .str r.output⟩

/-- The rewrite `handle_tool_calls` applies to the last result of a batch:
the composite of the encoded screenshot, the reduced UI hierarchy behind
its prompt marker, and the original status text. -/
def augR (img ui : String) (r : RawResult) : ToolResult :=
  ⟨r.tool_call_id,
   .blocks [.image img, .text (UI_HIERARCHY_PROMPT ++ ui), .text r.output]⟩

/-- The `for tool_call in tool_calls` loop of `handle_tool_calls`: run each
call; an exception in the caught tuple becomes that call's error result and
the loop continues, any other exception propagates and aborts the batch. -/
def dispatchCalls (cod : Codecs) (dev : Device) :
    List ToolCall → Except Exc (List RawResult) × List Event
  | [] => (.ok [], [])
  | tc :: rest =>
    match runCall cod dev tc with
    | (.ok s, ev) =>
      (match dispatchCalls cod dev rest with
       | (.ok rs, ev2) => (.ok (⟨tc.id, s⟩ :: rs), ev ++ ev2)
       | (.error e2, ev2) => (.error e2, ev ++ ev2))
    | (.error e, ev) =>
      if caught e then
        (match dispatchCalls cod dev rest with
         | (.ok rs, ev2) => (.ok (⟨tc.id, errText e⟩ :: rs), ev ++ ev2)
         | (.error e2, ev2) => (.error e2, ev ++ ev2))
      else (.error e, ev)

/-- `handle_tool_calls`: dispatch every call, then unconditionally rewrite
the last result into the composite of a fresh encoded screenshot, the fresh
reduced UI hierarchy, and the original status text.  The captures run
before the `tool_results[-1]` access, which raises `IndexError` on an empty
batch. -/
def handle_tool_calls (cod : Codecs) (dev : Device) (tool_calls : List ToolCall) :
    Except Exc (List ToolResult) × List Event :=
  match dispatchCalls cod dev tool_calls with
  | (.error e, ev) => (.error e, ev)
  | (.ok raw, ev) =>
    match take_screenshot cod dev with
    | (.error e, ev2) => (.error e, ev ++ ev2)
    | (.ok img, ev2) =>
      match get_ui_hierarchy cod dev true with
      | (.error e, ev3) => (.error e, ev ++ ev2 ++ ev3)
      | (.ok ui, ev3) =>
        match raw.getLast? with
        | none => (.error .indexError, ev ++ ev2 ++ ev3)
        | some last =>
          (.ok (raw.dropLast.map wrapR ++ [augR img ui last]),
           ev ++ ev2 ++ ev3)

/-! ## Screenshot resizing (`process_screenshot`, dimension level) -/

/-- A decoded image, at the dimension level the resizing logic observes. -/
structure PILImage where
  width : Nat
  height : Nat
deriving DecidableEq, Repr

/-- The resizing step of `process_screenshot`: if the width exceeds
`MAX_WIDTH = 768`, resize to width 768 and height
`int(height * (768 / width))`.  The Python float product is modelled by the
exact truncated quotient `height * 768 / width`. -/
def process_screenshot (img : PILImage) : PILImage :=
  if img.width > 768 then
    { width := 768, height := img.height * 768 / img.width }
  else img

/-! ## The agent loop (`call_llm`) -/

/-- One scripted backend response: the assistant message content and its
tool calls (`[]` models an absent/empty `tool_calls` field). -/
structure Resp where
  content : Option String
  tool_calls : List ToolCall
deriving DecidableEq, Repr

/-- The assistant message as appended to the transcript: a falsy content
(`None` or the empty string) has its `content` key deleted. -/
def assistantMsg (r : Resp) : Msg :=
  { role := "assistant"
    content := match r.content with
      | some s => if s = "" then .omitted else .str s
      | none => .omitted
    tool_call_id := none
    tool_calls := r.tool_calls }

/-- The tool turn appended for one tool result, tagged with the originating
call identifier. -/
def toolMsg (res : ToolResult) : Msg :=
  { role := "tool", content := res.output, tool_call_id := some res.tool_call_id,
    tool_calls := [] }

/-- Outcome of running `call_llm` against a finite backend script.  Every
constructor carries the list of transcripts as they stood at the moment of
each backend call (the transcript is serialized and sent at the top of each
iteration, before the scripted response is consumed). -/
inductive LoopOut where
  | done (final : Option String) (messages : List Msg) (sent : List (List Msg))
  | failed (e : Exc) (sent : List (List Msg))
  | outOfScript (sent : List (List Msg))
deriving DecidableEq, Repr

/-- The `while True` loop of `call_llm`, driven by a finite response
script: send the transcript, receive the scripted assistant message, prune
the transcript, and either return (no tool calls) or dispatch the calls and
append the assistant turn followed by one tool turn per result. -/
def call_llm_loop (cod : Codecs) (dev : Device) :
    List Resp → List Msg → List (List Msg) → LoopOut
  | [], msgs, sent => .outOfScript (sent ++ [msgs])
  | r :: rest, msgs, sent =>
    let sent2 := sent ++ [msgs]
    let msgs2 := clean_messages msgs
    match r.tool_calls with
    | [] => .done r.content msgs2 sent2
    | tc :: tcs =>
      match handle_tool_calls cod dev (tc :: tcs) with
      | (.error e, _) => .failed e sent2
      | (.ok results, _) =>
        call_llm_loop cod dev rest (msgs2 ++ assistantMsg r :: results.map toolMsg) sent2

/-- `call_llm` from a starting transcript. -/
def call_llm (cod : Codecs) (dev : Device) (script : List Resp) (messages : List Msg) :
    LoopOut :=
  call_llm_loop cod dev script messages []

/-- The transcripts sent to the backend during a run. -/
def sentOf : LoopOut → List (List Msg)
  | .done _ _ s => s
  | .failed _ s => s
  | .outOfScript s => s

/-- Every transcript observable during a run: each transcript as sent, plus
the final transcript returned on termination. -/
def reachableOf : LoopOut → List (List Msg)
  | .done _ m s => s ++ [m]
  | .failed _ s => s
  | .outOfScript s => s

/-- The initial transcript `main` builds: the system prompt turn followed
by the user request turn. -/
def initMessages (sys user : String) : List Msg :=
  [{ role := "system", content := .str sys, tool_call_id := none, tool_calls := [] },
   { role := "user", content := .str user, tool_call_id := none, tool_calls := [] }]

/-! ## Concrete test fixtures -/

/-- A device whose every command succeeds with empty output. -/
def okDev : Device := ⟨fun _ => .ok ""⟩

/-- Identity codecs: good enough to exercise the dispatch and loop logic on
concrete inputs. -/
def cod0 : Codecs := ⟨fun s => s, fun s => s, fun s => s⟩

/-- A device for which every command always succeeds. -/
def DevTotal (dev : Device) : Prop := ∀ c, ∃ o, dev.run c = .ok o

/-- A `click` tool call with both coordinates present. -/
def clickCall (cid : String) (x y : Int) : ToolCall :=
  ⟨cid, ⟨"click", some (.valid [("x", .intV x), ("y", .intV y)])⟩⟩

/-- A `home` tool call (no arguments). -/
def homeCall (cid : String) : ToolCall := ⟨cid, ⟨"home", none⟩⟩

/-- An `enter_text` call whose text is `"a---\nb"`: a sentinel-flagged line
followed by a plain line. -/
def enterTextCall : ToolCall :=
  ⟨"e1", ⟨"enter_text", some (.valid [("text", .strV "a---\nb")])⟩⟩

/-- A `click` call whose argument object is missing the required `x`. -/
def badClickCall : ToolCall := ⟨"b1", ⟨"click", some (.valid [("y", .intV 2)])⟩⟩

/-- A device on which `input tap 1 2` exits with a non-zero status and every
other command succeeds. -/
def devTapNonZero : Device :=
  ⟨fun c => if c = ["input", "tap", "1", "2"] then .error (.nonZeroExit "boom") else .ok ""⟩

/-- A device on which starting the `input tap 1 2` process fails with an
`OSError` and every other command succeeds. -/
def devTapOSErr : Device :=
  ⟨fun c => if c = ["input", "tap", "1", "2"] then .error (.ioError "io") else .ok ""⟩

/-- A backend script of three single-click rounds followed by a final
text-only answer. -/
def clickScript : List Resp :=
  [⟨some "step one", [clickCall "c1" 1 2]⟩,
   ⟨some "step two", [clickCall "c2" 3 4]⟩,
   ⟨some "step three", [clickCall "c3" 5 6]⟩,
   ⟨some "final answer", []⟩]

/-- A backend script of one single-click round followed by a final
text-only answer. -/
def oneClickScript : List Resp :=
  [⟨some "plan", [clickCall "c1" 1 2]⟩, ⟨some "final answer", []⟩]

/-- The status text carried by a tool result: the plain string, or the text
of the status block of an augmented composite. -/
def statusOf : Content → Option String
  | .str s => some s
  | .blocks [.image _, .text _, .text s] => some s
  | _ => none

/-- The status string one tool call contributes to the raw result list:
its handler's status on success, the boundary error text when its exception
is caught (meaningful for batches whose dispatch succeeds). -/
def callStatus (cod : Codecs) (dev : Device) (tc : ToolCall) : String :=
  match (runCall cod dev tc).1 with
  | .ok s => s
  | .error e => errText e

/-- The results of dispatching a lone `home` call on `okDev` with the
identity codecs. -/
def homeResults : List ToolResult :=
  [⟨"h1", .blocks [.image "", .text (UI_HIERARCHY_PROMPT ++ ""),
                   .text "Pressed home button"]⟩]

/-- The events of dispatching a lone `home` call on `okDev`. -/
def homeEvents : List Event :=
  [.cmd ["input", "keyevent", "KEYCODE_HOME"], .cmd ["screencap", "-p"],
   .cmd ["uiautomator", "dump", "/sdcard/window_dump.xml"],
   .cmd ["cat", "/sdcard/window_dump.xml"]]

/-- Results of the batch `[badClickCall, home]` on `okDev`. -/
def c5R1 : List ToolResult :=
  [⟨"b1", .str ("Error processing tool call: " ++ squote ++ "x" ++ squote)⟩,
   ⟨"c2", .blocks [.image "", .text (UI_HIERARCHY_PROMPT ++ ""),
                   .text "Pressed home button"]⟩]

/-- Results of the batch `[home, home]` on `okDev`. -/
def c5R2 : List ToolResult :=
  [⟨"g1", .str "Pressed home button"⟩,
   ⟨"c2", .blocks [.image "", .text (UI_HIERARCHY_PROMPT ++ ""),
                   .text "Pressed home button"]⟩]

/-- Events of the batch `[badClickCall, home]` on `okDev`. -/
def c5Ev1 : List Event :=
  [.cmd ["input", "keyevent", "KEYCODE_HOME"], .cmd ["screencap", "-p"],
   .cmd ["uiautomator", "dump", "/sdcard/window_dump.xml"],
   .cmd ["cat", "/sdcard/window_dump.xml"]]

/-- Events of the batch `[home, home]` on `okDev`. -/
def c5Ev2 : List Event :=
  [.cmd ["input", "keyevent", "KEYCODE_HOME"]] ++ c5Ev1

/-- How `clean_messages` may change one turn: keep it unchanged, or —
only for a turn with list-structured content — rewrite the content to the
blocks `should_keep` accepts, touching nothing else. -/
def RewriteOnlyMsg (m m2 : Msg) : Prop :=
  m2 = m ∨ ∃ es, m.content = .blocks es ∧
    m2 = { m with content := .blocks (es.filter should_keep) }

/-- The transcript invariant of a run started with system prompt `sys`:
the first turn is exactly the system turn, and no other turn has the
`system` role. -/
def SysInv (sys : String) (t : List Msg) : Prop :=
  t.head? = some ⟨"system", .str sys, none, []⟩ ∧
  t.countP (fun m => m.role == "system") = 1

/-! ## Theorems -/

theorem filter_should_keep_idem (es : List Entry) :
    (es.filter should_keep).filter should_keep = es.filter should_keep := by
  induction es with
  | nil => rfl
  | cons e rest ih =>
    by_cases h : should_keep e
    · simp [List.filter, h, ih]
    · simp only [Bool.not_eq_true] at h
      simp [List.filter, h, ih]

theorem cleanRev_idem (b : Int) (l : List Msg) :
    cleanRev b (cleanRev b l) = cleanRev b l := by
  induction l generalizing b with
  | nil => rfl
  | cons m rest ih =>
    cases hc : m.content with
    | omitted => simp [cleanRev, hc, ih]
    | str s => simp [cleanRev, hc, ih]
    | blocks es =>
      by_cases hb : b - 1 < 0
      · simp [cleanRev, hc, hb, ih, filter_should_keep_idem]
      · simp [cleanRev, hc, hb, ih]

/-- C3: for every transcript, applying the pruning operation
`clean_messages` twice in a row yields the same transcript as applying it
once. -/
theorem clean_messages_idempotent (t : List Msg) :
    clean_messages (clean_messages t) = clean_messages t := by
  unfold clean_messages
  rw [List.reverse_reverse, cleanRev_idem]

theorem okDev_total : DevTotal okDev := fun _ => ⟨"", rfl⟩

theorem run_shell_ok (dev : Device) (cmd : List String) (o : String)
    (h : dev.run cmd = .ok o) :
    run_shell_command dev cmd = (.ok o, [.cmd cmd]) := by
  unfold run_shell_command; rw [h]

theorem bindE_pure {α β : Type} (a : α) (f : α → ExecM β) : bindE (pureE a) f = f a := by
  unfold bindE pureE; rcases h : f a with ⟨r, ev⟩; simp [h]

theorem bindE_ok {α β : Type} (a : α) (ev : List Event) (f : α → ExecM β) :
    bindE (.ok a, ev) f = ((f a).1, ev ++ (f a).2) := by
  unfold bindE; rcases h : f a with ⟨r, ev2⟩; simp [h]

theorem bindE_err {α β : Type} (e : Exc) (ev : List Event) (f : α → ExecM β) :
    bindE (.error e, ev) f = (.error e, ev) := rfl

theorem bind_eq_bindE {α β : Type} (m : ExecM α) (f : α → ExecM β) :
    (m >>= f) = bindE m f := rfl

theorem pure_eq_pureE {α : Type} (a : α) : (pure a : ExecM α) = pureE a := rfl

/-- C7: executing the `enter_text` action on `"a---\nb"` issues exactly two
text injections: first the sentinel-stripped `a` with no following submit
event, then `b` followed, after the fixed settle delay, by the ENTER key
event. -/
theorem enter_text_sentinel_submissions (cod : Codecs) (dev : Device) (h : DevTotal dev) :
    runCall cod dev enterTextCall =
      (.ok ("Entered text: " ++ squote ++ "a---\nb" ++ squote),
       [.cmd ["input", "text", squote ++ "a" ++ squote],
        .cmd ["input", "text", squote ++ "b" ++ squote],
        .sleep 250,
        .cmd ["input", "keyevent", "KEYCODE_ENTER"]]) := by
  obtain ⟨o1, h1⟩ := h ["input", "text", squote ++ "a" ++ squote]
  obtain ⟨o2, h2⟩ := h ["input", "text", squote ++ "b" ++ squote]
  obtain ⟨o3, h3⟩ := h ["input", "keyevent", "KEYCODE_ENTER"]
  have hsplit : pySplitNl "a---\nb" = ["a---", "b"] := by decide
  have hs1 : pyEndsWith "a---" "---" = true := by decide
  have hs2 : pyEndsWith "b" "---" = false := by decide
  have hd1 : "a---".dropRight 3 = "a" := by decide
  have hr1 : pyReplace (pyReplace (pyReplace "a" squote " ") "€" "EUR") "ö" "o" = "a" := by
    decide
  have hr2 : pyReplace (pyReplace (pyReplace "b" squote " ") "€" "EUR") "ö" "o" = "b" := by
    decide
  simp +decide [runCall, enterTextCall, getArgs, argGet, asStr, List.lookup,
    bindE_pure, enter_lines, enter_line, hsplit, hs1, hs2, hd1, hr1, hr2,
    run_shell_ok dev _ _ h1, run_shell_ok dev _ _ h2, run_shell_ok dev _ _ h3,
    bindE_ok, sleepE, pureE, bind_eq_bindE, pure_eq_pureE]

/-- Witness for C7 at the always-succeeding device. -/
theorem enter_text_sentinel_submissions_witness :
    runCall cod0 okDev enterTextCall =
      (.ok ("Entered text: " ++ squote ++ "a---\nb" ++ squote),
       [.cmd ["input", "text", squote ++ "a" ++ squote],
        .cmd ["input", "text", squote ++ "b" ++ squote],
        .sleep 250,
        .cmd ["input", "keyevent", "KEYCODE_ENTER"]]) :=
  enter_text_sentinel_submissions cod0 okDev (fun _ => ⟨"", rfl⟩)

/-- C9: `process_screenshot` downscales any image wider than 768 pixels to
width exactly 768 with the height scaled by 768/width to within one pixel,
and leaves narrower images untouched. -/
theorem process_screenshot_bounds (img : PILImage) :
    (768 < img.width →
      (process_screenshot img).width = 768 ∧
      |((process_screenshot img).height : ℚ) -
        (img.height : ℚ) * 768 / (img.width : ℚ)| < 1) ∧
    (img.width ≤ 768 → process_screenshot img = img) := by
  constructor
  · intro hw
    unfold process_screenshot
    rw [if_pos hw]
    refine ⟨rfl, ?_⟩
    have hw0 : (0 : ℚ) < (img.width : ℚ) := by
      exact_mod_cast Nat.lt_of_lt_of_le (by norm_num) (Nat.le_of_lt hw)
    have hqr : img.width * (img.height * 768 / img.width) + img.height * 768 % img.width
        = img.height * 768 := Nat.div_add_mod _ _
    have hrlt : img.height * 768 % img.width < img.width := Nat.mod_lt _ (by omega)
    rw [abs_sub_lt_iff]
    constructor
    · have hle : ((img.height * 768 / img.width : Nat) : ℚ)
          ≤ (img.height : ℚ) * 768 / (img.width : ℚ) := by
        rw [le_div_iff₀ hw0]
        exact_mod_cast Nat.div_mul_le_self (img.height * 768) img.width
      linarith
    · rw [sub_lt_iff_lt_add, div_lt_iff₀ hw0]
      have hlt : img.height * 768 < img.width * (img.height * 768 / img.width) + img.width := by
        omega
      have hltQ : (img.height : ℚ) * 768
          < (img.width : ℚ) * ((img.height * 768 / img.width : Nat) : ℚ) + (img.width : ℚ) := by
        exact_mod_cast hlt
      linarith
  · intro hw
    unfold process_screenshot
    rw [if_neg (by omega)]

/-- Witness for C9 at a 1000 x 2000 input image. -/
theorem process_screenshot_bounds_witness :
    (process_screenshot ⟨1000, 2000⟩).width = 768 ∧
    |((process_screenshot ⟨1000, 2000⟩).height : ℚ) -
      ((2000 : ℚ) * 768 / (1000 : ℚ))| < 1 := by
  have h := (process_screenshot_bounds ⟨1000, 2000⟩).1 (by decide)
  simpa using h

/-- C10: `handle_tool_calls` on the empty batch never returns a result
list: the unconditional last-result augmentation indexes the empty result
list, so the call fails (with `IndexError` whenever the capture commands
themselves succeed, as on `okDev`). -/
theorem handle_tool_calls_empty_fails (cod : Codecs) (dev : Device) :
    (∃ e, (handle_tool_calls cod dev []).1 = .error e) ∧
    (handle_tool_calls cod okDev []).1 = .error .indexError := by
  constructor
  · unfold handle_tool_calls
    simp only [dispatchCalls]
    rcases hts : take_screenshot cod dev with ⟨r1, ev1⟩
    cases r1 with
    | error e => exact ⟨e, rfl⟩
    | ok img =>
      rcases hui : get_ui_hierarchy cod dev true with ⟨r2, ev2⟩
      cases r2 with
      | error e => exact ⟨e, rfl⟩
      | ok ui => exact ⟨.indexError, rfl⟩
  · rfl

/-- Witness for C10, closing the existential at the concrete device. -/
theorem handle_tool_calls_empty_fails_witness :
    (∃ e, (handle_tool_calls cod0 okDev []).1 = .error e) ∧
    (handle_tool_calls cod0 okDev []).1 = .error .indexError :=
  handle_tool_calls_empty_fails cod0 okDev

/-- C1 (documenting the divergence): on a device whose `input tap` command
exits non-zero, the whole batch aborts with the bare
`Exception("Command failed: ...")` that `run_shell_command` substitutes for
the `CalledProcessError`, and no result list is produced — the sibling
`home` call is lost; by contrast an `OSError` from the same command is
caught per-call and the sibling still executes and is augmented. -/
theorem device_failure_aborts_batch :
    (handle_tool_calls cod0 devTapNonZero [clickCall "c1" 1 2, homeCall "c2"]).1
      = .error (.generic ("Command failed: " ++ "boom")) ∧
    (handle_tool_calls cod0 devTapOSErr [clickCall "c1" 1 2, homeCall "c2"]).1
      = .ok [⟨"c1", .str ("Error processing tool call: " ++ "io")⟩,
             ⟨"c2", .blocks [.image "", .text (UI_HIERARCHY_PROMPT ++ ""),
                             .text "Pressed home button"]⟩] := by
  constructor
  · decide
  · decide

theorem take_screenshot_inv (cod : Codecs) (dev : Device) (img : String) (ev : List Event)
    (h : take_screenshot cod dev = (.ok img, ev)) :
    ∃ raw, dev.run ["screencap", "-p"] = .ok raw ∧
      img = cod.b64encode (cod.process_screenshot_bytes raw) ∧
      ev = [.cmd ["screencap", "-p"]] := by
  unfold take_screenshot at h
  simp only [bind_eq_bindE, pure_eq_pureE] at h
  unfold run_shell_command at h
  rcases hr : dev.run ["screencap", "-p"] with e | raw
  · rw [hr] at h
    cases e <;> simp [bindE] at h
  · rw [hr] at h
    simp [bindE, pureE] at h
    exact ⟨raw, rfl, h.1.symm, h.2.symm⟩

theorem get_ui_hierarchy_inv (cod : Codecs) (dev : Device) (ui : String) (ev : List Event)
    (h : get_ui_hierarchy cod dev true = (.ok ui, ev)) :
    ∃ o1 rawUi, dev.run ["uiautomator", "dump", "/sdcard/window_dump.xml"] = .ok o1 ∧
      dev.run ["cat", "/sdcard/window_dump.xml"] = .ok rawUi ∧
      ui = cod.clean_hierarchy rawUi ∧
      ev = [.cmd ["uiautomator", "dump", "/sdcard/window_dump.xml"],
            .cmd ["cat", "/sdcard/window_dump.xml"]] := by
  unfold get_ui_hierarchy at h
  simp only [bind_eq_bindE, pure_eq_pureE] at h
  unfold run_shell_command at h
  rcases hr1 : dev.run ["uiautomator", "dump", "/sdcard/window_dump.xml"] with e | o1
  · rw [hr1] at h
    cases e <;> simp [bindE] at h
  · rw [hr1] at h
    rcases hr2 : dev.run ["cat", "/sdcard/window_dump.xml"] with e | rawUi
    · rw [hr2] at h
      cases e <;> simp [bindE] at h
    · rw [hr2] at h
      simp [bindE, pureE] at h
      exact ⟨o1, rawUi, rfl, rfl, h.1.symm, h.2.symm⟩

theorem dispatch_ok_raw (cod : Codecs) (dev : Device) :
    ∀ (tcs : List ToolCall) (raw : List RawResult) (ev : List Event),
      dispatchCalls cod dev tcs = (.ok raw, ev) →
      raw = tcs.map (fun tc => ⟨tc.id, callStatus cod dev tc⟩) := by
  intro tcs
  induction tcs with
  | nil =>
    intro raw ev h
    simp only [dispatchCalls, Prod.mk.injEq] at h
    obtain ⟨h1, _⟩ := h
    injection h1 with h1
    exact h1.symm
  | cons tc rest ih =>
    intro raw ev h
    unfold dispatchCalls at h
    rcases hr : runCall cod dev tc with ⟨r1, ev1⟩
    rw [hr] at h
    cases r1 with
    | ok s =>
      rcases hd : dispatchCalls cod dev rest with ⟨r2, ev2⟩
      rw [hd] at h
      cases r2 with
      | ok rs =>
        simp only [Prod.mk.injEq] at h
        obtain ⟨h1, _⟩ := h
        injection h1 with h1
        subst h1
        simp [List.map_cons, callStatus, hr, ih rs ev2 hd]
      | error e2 => simp at h
    | error e =>
      by_cases hc : caught e = true
      · simp only [hc, if_true] at h
        rcases hd : dispatchCalls cod dev rest with ⟨r2, ev2⟩
        rw [hd] at h
        cases r2 with
        | ok rs =>
          simp only [Prod.mk.injEq] at h
          obtain ⟨h1, _⟩ := h
          injection h1 with h1
          subst h1
          simp [List.map_cons, callStatus, hr, ih rs ev2 hd]
        | error e2 => simp at h
      · simp only [hc, if_false] at h
        simp at h

/-- C2: a dispatch that returns yields exactly one result per input call,
in input order with matching identifiers; every result but the last is a
plain status string, and the last is the composite of the freshly captured
encoded screen image, the freshly captured reduced UI tree, and the last
call's own original pre-augmentation status text (`callStatus`), with the
capture commands issued after the batch. -/
theorem dispatch_results_shape (cod : Codecs) (dev : Device) (tcs : List ToolCall)
    (results : List ToolResult) (evAll : List Event)
    (h : handle_tool_calls cod dev tcs = (.ok results, evAll)) :
    results.length = tcs.length ∧
    results.map ToolResult.tool_call_id = tcs.map ToolCall.id ∧
    (∀ i, i + 1 < results.length → ∃ s, results[i]?.map ToolResult.output = some (.str s)) ∧
    (∃ rawImg rawUi lastTc,
      dev.run ["screencap", "-p"] = .ok rawImg ∧
      dev.run ["cat", "/sdcard/window_dump.xml"] = .ok rawUi ∧
      tcs.getLast? = some lastTc ∧
      results.getLast?.map ToolResult.output =
        some (.blocks
          [.image (cod.b64encode (cod.process_screenshot_bytes rawImg)),
           .text (UI_HIERARCHY_PROMPT ++ cod.clean_hierarchy rawUi),
           .text (callStatus cod dev lastTc)])) ∧
    (∃ ev, evAll = ev ++
      [.cmd ["screencap", "-p"],
       .cmd ["uiautomator", "dump", "/sdcard/window_dump.xml"],
       .cmd ["cat", "/sdcard/window_dump.xml"]]) := by
  unfold handle_tool_calls at h
  rcases hd : dispatchCalls cod dev tcs with ⟨rd, ev1⟩
  rw [hd] at h
  cases rd with
  | error e => simp at h
  | ok raw =>
    rcases hts : take_screenshot cod dev with ⟨rt, ev2⟩
    rw [hts] at h
    cases rt with
    | error e => simp at h
    | ok img =>
      rcases hui : get_ui_hierarchy cod dev true with ⟨ru, ev3⟩
      rw [hui] at h
      cases ru with
      | error e => simp at h
      | ok ui =>
        dsimp only at h
        cases hl : raw.getLast? with
        | none => rw [hl] at h; simp at h
        | some last =>
          rw [hl] at h
          simp only [Prod.mk.injEq] at h
          obtain ⟨h1, h2⟩ := h
          injection h1 with h1
          obtain ⟨ini, rfl⟩ := List.getLast?_eq_some_iff.mp hl
          obtain ⟨rawImg, hImg1, hImg2, hImg3⟩ := take_screenshot_inv cod dev img ev2 hts
          obtain ⟨o1, rawUi, _, hUi2, hUi3, hUi4⟩ := get_ui_hierarchy_inv cod dev ui ev3 hui
          have hraw := dispatch_ok_raw cod dev tcs (ini ++ [last]) ev1 hd
          rw [List.dropLast_concat] at h1
          have hmapid : (ini ++ [last]).map RawResult.tool_call_id
              = tcs.map ToolCall.id := by
            rw [hraw, List.map_map]
            rfl
          refine ⟨?_, ?_, ?_, ?_, ?_⟩
          · rw [← h1]
            have hlenraw : ini.length + 1 = tcs.length := by
              have := congrArg List.length hmapid
              simpa using this
            simp [← hlenraw]
          · rw [← h1]
            rw [← hmapid]
            simp [List.map_append, wrapR, augR, Function.comp]
          · intro i hi
            rw [← h1] at hi ⊢
            simp only [List.length_append, List.length_map, List.length_cons,
              List.length_nil] at hi
            have hlt2 : i < ini.length := by omega
            have hilt : i < (ini.map wrapR).length := by simpa using hlt2
            rw [List.getElem?_append_left hilt]
            refine ⟨(ini[i]).output, ?_⟩
            rw [List.getElem?_map, List.getElem?_eq_getElem hlt2]
            simp [wrapR]
          · have hlastraw : (ini ++ [last]).getLast? = some last := List.getLast?_concat _
            rw [hraw, List.getLast?_map] at hlastraw
            obtain ⟨lastTc, hTc, hfTc⟩ := Option.map_eq_some'.mp hlastraw
            refine ⟨rawImg, rawUi, lastTc, hImg1, hUi2, hTc, ?_⟩
            rw [← h1]
            rw [List.getLast?_concat]
            simp [augR, hImg2, hUi3, ← hfTc]
          · refine ⟨ev1, ?_⟩
            rw [← h2, hImg3, hUi4]
            simp

/-- Witness for C2 at a one-call `home` batch on the concrete device. -/
theorem dispatch_results_shape_witness :
    homeResults.length = [homeCall "h1"].length ∧
    homeResults.map ToolResult.tool_call_id = [homeCall "h1"].map ToolCall.id ∧
    (∀ i, i + 1 < homeResults.length →
      ∃ s, homeResults[i]?.map ToolResult.output = some (.str s)) ∧
    (∃ rawImg rawUi lastTc,
      okDev.run ["screencap", "-p"] = .ok rawImg ∧
      okDev.run ["cat", "/sdcard/window_dump.xml"] = .ok rawUi ∧
      [homeCall "h1"].getLast? = some lastTc ∧
      homeResults.getLast?.map ToolResult.output =
        some (.blocks
          [.image (cod0.b64encode (cod0.process_screenshot_bytes rawImg)),
           .text (UI_HIERARCHY_PROMPT ++ cod0.clean_hierarchy rawUi),
           .text (callStatus cod0 okDev lastTc)])) ∧
    (∃ ev, homeEvents = ev ++
      [.cmd ["screencap", "-p"],
       .cmd ["uiautomator", "dump", "/sdcard/window_dump.xml"],
       .cmd ["cat", "/sdcard/window_dump.xml"]]) :=
  dispatch_results_shape cod0 okDev [homeCall "h1"] homeResults homeEvents (by decide)

theorem handle_ok_results (cod : Codecs) (dev : Device) (tcs : List ToolCall)
    (results : List ToolResult) (evAll : List Event)
    (h : handle_tool_calls cod dev tcs = (.ok results, evAll)) :
    ∃ img ui,
      (take_screenshot cod dev).1 = .ok img ∧
      (get_ui_hierarchy cod dev true).1 = .ok ui ∧
      ∃ ini last,
        tcs.map (fun tc => (⟨tc.id, callStatus cod dev tc⟩ : RawResult)) = ini ++ [last] ∧
        results = ini.map wrapR ++ [augR img ui last] := by
  unfold handle_tool_calls at h
  rcases hd : dispatchCalls cod dev tcs with ⟨rd, ev1⟩
  rw [hd] at h
  cases rd with
  | error e => simp at h
  | ok raw =>
    rcases hts : take_screenshot cod dev with ⟨rt, ev2⟩
    rw [hts] at h
    cases rt with
    | error e => simp at h
    | ok img =>
      rcases hui : get_ui_hierarchy cod dev true with ⟨ru, ev3⟩
      rw [hui] at h
      cases ru with
      | error e => simp at h
      | ok ui =>
        dsimp only at h
        cases hl : raw.getLast? with
        | none => rw [hl] at h; simp at h
        | some last =>
          rw [hl] at h
          simp only [Prod.mk.injEq] at h
          obtain ⟨h1, _⟩ := h
          injection h1 with h1
          obtain ⟨ini, rfl⟩ := List.getLast?_eq_some_iff.mp hl
          have hraw := dispatch_ok_raw cod dev tcs (ini ++ [last]) ev1 hd
          rw [List.dropLast_concat] at h1
          exact ⟨img, ui, rfl, rfl, ini, last, hraw.symm, h1.symm⟩

theorem getElem?_middle_ne {τ : Type} (L R : List τ) (x1 x2 : τ) (i : Nat)
    (hi : i ≠ L.length) :
    (L ++ x1 :: R)[i]? = (L ++ x2 :: R)[i]? := by
  rcases Nat.lt_or_ge i L.length with hlt | hge
  · rw [List.getElem?_append_left hlt, List.getElem?_append_left hlt]
  · rw [List.getElem?_append_right hge, List.getElem?_append_right hge]
    obtain ⟨k, hk⟩ : ∃ k, i - L.length = k + 1 := ⟨i - L.length - 1, by omega⟩
    rw [hk]
    simp

theorem getElem?_middle {τ : Type} (L R : List τ) (x : τ) :
    (L ++ x :: R)[L.length]? = some x := by
  rw [List.getElem?_append_right (le_refl _)]
  simp

theorem runCall_click_missing_x (cod : Codecs) (dev : Device) (cid : String) (m : Args)
    (hm : m.lookup "x" = none) :
    runCall cod dev ⟨cid, ⟨"click", some (.valid m)⟩⟩ = (.error (.keyError "x"), []) := by
  simp +decide [runCall, getArgs, bindE_pure, bind_eq_bindE, pure_eq_pureE, argGet, hm,
    throwE, bindE_err]

theorem concat_inj_last {τ : Type} (L1 L2 : List τ) (a b : τ)
    (h : L1 ++ [a] = L2 ++ [b]) : L1 = L2 ∧ a = b := by
  have hd := congrArg List.dropLast h
  rw [List.dropLast_concat, List.dropLast_concat] at hd
  have hg := congrArg List.getLast? h
  rw [List.getLast?_concat, List.getLast?_concat] at hg
  injection hg with hg
  exact ⟨hd, hg⟩

theorem statusOf_wrapR (r : RawResult) : statusOf (wrapR r).output = some r.output := rfl

theorem statusOf_augR (img ui : String) (r : RawResult) :
    statusOf (augR img ui r).output = some r.output := rfl

/-- The finished result lists of two batches that differ in one raw result
agree everywhere except at that position, and at that position the status
text is the differing raw result's output. -/
theorem results_off_middle (A C ini1 ini2 : List RawResult) (mid1 mid2 last1 last2 : RawResult)
    (img ui : String)
    (hd1 : A ++ mid1 :: C = ini1 ++ [last1])
    (hd2 : A ++ mid2 :: C = ini2 ++ [last2]) :
    (∃ r, (ini1.map wrapR ++ [augR img ui last1])[A.length]? = some r ∧
      statusOf r.output = some mid1.output) ∧
    ∀ i, i ≠ A.length →
      (ini1.map wrapR ++ [augR img ui last1])[i]?
        = (ini2.map wrapR ++ [augR img ui last2])[i]? := by
  rcases List.eq_nil_or_concat C with rfl | ⟨C2, clast, rfl⟩
  · obtain ⟨hA1, hm1⟩ := concat_inj_last _ _ _ _ hd1
    obtain ⟨hA2, hm2⟩ := concat_inj_last _ _ _ _ hd2
    subst hA1 hm1
    subst hA2 hm2
    constructor
    · refine ⟨augR img ui mid1, ?_, statusOf_augR img ui mid1⟩
      have hlen : A.length = (A.map wrapR).length := by simp
      rw [hlen, List.getElem?_concat_length]
    · intro i hi
      have hi2 : i ≠ (A.map wrapR).length := by simpa using hi
      have := getElem?_middle_ne (A.map wrapR) [] (augR img ui mid1) (augR img ui mid2) i hi2
      simpa using this
  · have hd1' : (A ++ mid1 :: C2) ++ [clast] = ini1 ++ [last1] := by
      rw [← hd1]; simp
    have hd2' : (A ++ mid2 :: C2) ++ [clast] = ini2 ++ [last2] := by
      rw [← hd2]; simp
    obtain ⟨hA1, hc1⟩ := concat_inj_last _ _ _ _ hd1'
    obtain ⟨hA2, hc2⟩ := concat_inj_last _ _ _ _ hd2'
    subst hA1 hc1
    subst hA2 hc2
    have hsplit1 : (A ++ mid1 :: C2).map wrapR ++ [augR img ui clast]
        = A.map wrapR ++ wrapR mid1 :: (C2.map wrapR ++ [augR img ui clast]) := by
      simp
    have hsplit2 : (A ++ mid2 :: C2).map wrapR ++ [augR img ui clast]
        = A.map wrapR ++ wrapR mid2 :: (C2.map wrapR ++ [augR img ui clast]) := by
      simp
    rw [hsplit1, hsplit2]
    constructor
    · refine ⟨wrapR mid1, ?_, statusOf_wrapR mid1⟩
      have hlen : A.length = (A.map wrapR).length := by simp
      rw [hlen, getElem?_middle]
    · intro i hi
      have hi2 : i ≠ (A.map wrapR).length := by simpa using hi
      exact getElem?_middle_ne (A.map wrapR) _ (wrapR mid1) (wrapR mid2) i hi2

/-- C5: in a batch containing a `click` call whose argument object lacks
the required `x`, dispatch records the `KeyError` failure text as that
call's status, and every sibling's result is exactly what it is in the
same batch with the malformed call replaced by any other call. -/
theorem missing_arg_isolated (cod : Codecs) (dev : Device) (pre post : List ToolCall)
    (cid : String) (m : Args) (hm : m.lookup "x" = none) (good : ToolCall)
    (R1 R2 : List ToolResult) (ev1 ev2 : List Event)
    (h1 : handle_tool_calls cod dev (pre ++ ⟨cid, ⟨"click", some (.valid m)⟩⟩ :: post)
        = (.ok R1, ev1))
    (h2 : handle_tool_calls cod dev (pre ++ good :: post) = (.ok R2, ev2)) :
    (∃ r, R1[pre.length]? = some r ∧
      statusOf r.output = some (errText (.keyError "x"))) ∧
    ∀ i, i ≠ pre.length → R1[i]? = R2[i]? := by
  obtain ⟨img1, ui1, himg1, hui1, ini1, last1, hdec1, hres1⟩ :=
    handle_ok_results cod dev _ R1 ev1 h1
  obtain ⟨img2, ui2, himg2, hui2, ini2, last2, hdec2, hres2⟩ :=
    handle_ok_results cod dev _ R2 ev2 h2
  have himg : img1 = img2 := by
    rw [himg1] at himg2; injection himg2
  have huiq : ui1 = ui2 := by
    rw [hui1] at hui2; injection hui2
  subst himg huiq
  have hbad : callStatus cod dev ⟨cid, ⟨"click", some (.valid m)⟩⟩
      = errText (.keyError "x") := by
    unfold callStatus
    rw [runCall_click_missing_x cod dev cid m hm]
  simp only [List.map_append, List.map_cons] at hdec1 hdec2
  have hmain := results_off_middle
    (pre.map (fun tc => (⟨tc.id, callStatus cod dev tc⟩ : RawResult)))
    (post.map (fun tc => (⟨tc.id, callStatus cod dev tc⟩ : RawResult)))
    ini1 ini2 _ _ last1 last2 img1 ui1 hdec1 hdec2
  rw [← hres1, ← hres2] at hmain
  simp only [List.length_map] at hmain
  obtain ⟨⟨r, hr1, hr2⟩, hoff⟩ := hmain
  exact ⟨⟨r, hr1, by rw [hr2]; simp [hbad]⟩, hoff⟩

/-- Witness for C5: the malformed click at the head of a two-call batch,
compared against the same batch with the malformed call replaced by a
well-formed call. -/
theorem missing_arg_isolated_witness :
    (∃ r, c5R1[(0 : Nat)]? = some r ∧
      statusOf r.output = some (errText (.keyError "x"))) ∧
    (∀ i, i ≠ (0 : Nat) → c5R1[i]? = c5R2[i]?) :=
  missing_arg_isolated cod0 okDev [] [homeCall "c2"] "b1" [("y", .intV 2)] (by decide)
    (homeCall "g1") c5R1 c5R2 c5Ev1 c5Ev2 (by decide) (by decide)

/-- C4 counterexample: in a run of three click rounds followed by a final
answer, the fourth transcript sent to the backend is not a fixed point of
`clean_messages` — pruning was not applied between appending the third
round's results and sending. -/
theorem sent_transcript_not_pruned :
    ∃ t, (sentOf (call_llm cod0 okDev clickScript (initMessages "SYS" "USR"))).getLast?
        = some t ∧
      clean_messages t ≠ t := by
  refine ⟨_, rfl, by decide⟩

theorem sentOf_loop_acc (cod : Codecs) (dev : Device) :
    ∀ (script : List Resp) (msgs : List Msg) (acc : List (List Msg)),
      sentOf (call_llm_loop cod dev script msgs acc)
        = acc ++ sentOf (call_llm_loop cod dev script msgs []) := by
  intro script
  induction script with
  | nil => intro msgs acc; simp [call_llm_loop, sentOf]
  | cons r rest ih =>
    intro msgs acc
    unfold call_llm_loop
    cases hr : r.tool_calls with
    | nil => simp [sentOf]
    | cons tc tcs =>
      rcases hh : handle_tool_calls cod dev (tc :: tcs) with ⟨res, ev⟩
      cases res with
      | error e => dsimp only; rw [hh]; simp [sentOf]
      | ok results =>
        dsimp only
        rw [hh]
        dsimp only
        rw [ih (clean_messages msgs ++ assistantMsg r :: results.map toolMsg) (acc ++ [msgs]),
            ih (clean_messages msgs ++ assistantMsg r :: results.map toolMsg) ([] ++ [msgs])]
        simp

theorem sentOf_loop_cons (cod : Codecs) (dev : Device) (script : List Resp) (msgs : List Msg) :
    ∃ tl, sentOf (call_llm_loop cod dev script msgs []) = msgs :: tl := by
  cases script with
  | nil => exact ⟨[], rfl⟩
  | cons r rest =>
    unfold call_llm_loop
    cases hr : r.tool_calls with
    | nil => exact ⟨[], rfl⟩
    | cons tc tcs =>
      rcases hh : handle_tool_calls cod dev (tc :: tcs) with ⟨res, ev⟩
      cases res with
      | error e => dsimp only; rw [hh]; exact ⟨[], rfl⟩
      | ok results =>
        dsimp only
        rw [hh]
        dsimp only
        rw [sentOf_loop_acc cod dev rest
          (clean_messages msgs ++ assistantMsg r :: results.map toolMsg) ([] ++ [msgs])]
        exact ⟨_, rfl⟩

/-- C4 as amended: pruning runs once per iteration, after the backend
response is received; hence every transcript sent after the first equals
the pruned form of the previously sent transcript extended with that
round's assistant turn and tool turns (so the sent transcript itself need
not be a fixed point of pruning). -/
theorem pruning_after_each_response (cod : Codecs) (dev : Device) :
    ∀ (script : List Resp) (msgs0 : List Msg) (k : Nat) (t t2 : List Msg),
      (sentOf (call_llm cod dev script msgs0))[k]? = some t →
      (sentOf (call_llm cod dev script msgs0))[k + 1]? = some t2 →
      ∃ r results ev,
        handle_tool_calls cod dev r.tool_calls = (.ok results, ev) ∧
        r.tool_calls ≠ [] ∧
        t2 = clean_messages t ++ assistantMsg r :: results.map toolMsg := by
  intro script
  induction script with
  | nil =>
    intro msgs0 k t t2 h1 h2
    simp [call_llm, call_llm_loop, sentOf] at h2
  | cons r rest ih =>
    intro msgs0 k t t2 h1 h2
    unfold call_llm call_llm_loop at h1 h2
    cases hr : r.tool_calls with
    | nil =>
      rw [hr] at h1 h2
      simp [sentOf] at h2
    | cons tc tcs =>
      rw [hr] at h1 h2
      dsimp only at h1 h2
      rcases hh : handle_tool_calls cod dev (tc :: tcs) with ⟨res, ev⟩
      rw [hh] at h1 h2
      cases res with
      | error e => simp [sentOf] at h2
      | ok results =>
        dsimp only at h1 h2
        rw [sentOf_loop_acc cod dev rest
          (clean_messages msgs0 ++ assistantMsg r :: results.map toolMsg) ([] ++ [msgs0])]
          at h1 h2
        cases k with
        | zero =>
          simp only [List.nil_append, List.cons_append, List.getElem?_cons_zero,
            Option.some.injEq] at h1
          obtain ⟨tl, htl⟩ := sentOf_loop_cons cod dev rest
            (clean_messages msgs0 ++ assistantMsg r :: results.map toolMsg)
          rw [htl] at h2
          simp only [List.nil_append, List.cons_append, List.getElem?_cons_succ,
            List.getElem?_cons_zero, Option.some.injEq] at h2
          refine ⟨r, results, ev, ?_, ?_, ?_⟩
          · rw [hr]; exact hh
          · rw [hr]; simp
          · rw [← h2, ← h1]
        | succ k =>
          simp only [List.nil_append, List.cons_append, List.getElem?_cons_succ] at h1 h2
          exact ih (clean_messages msgs0 ++ assistantMsg r :: results.map toolMsg) k t t2 h1 h2

/-- Witness for the amended C4: the relation between the first and second
sent transcripts of a one-click scripted run. -/
theorem pruning_after_each_response_witness :
    ∃ r results ev,
      handle_tool_calls cod0 okDev r.tool_calls = (.ok results, ev) ∧
      r.tool_calls ≠ [] ∧
      (sentOf (call_llm cod0 okDev oneClickScript (initMessages "SYS" "USR"))).getD 1 []
        = clean_messages
            ((sentOf (call_llm cod0 okDev oneClickScript (initMessages "SYS" "USR"))).getD 0 [])
          ++ assistantMsg r :: results.map toolMsg :=
  pruning_after_each_response cod0 okDev oneClickScript (initMessages "SYS" "USR") 0
    ((sentOf (call_llm cod0 okDev oneClickScript (initMessages "SYS" "USR"))).getD 0 [])
    ((sentOf (call_llm cod0 okDev oneClickScript (initMessages "SYS" "USR"))).getD 1 [])
    (by decide) (by decide)

theorem RewriteOnlyMsg.role_eq {m m2 : Msg} (h : RewriteOnlyMsg m m2) :
    m2.role = m.role := by
  rcases h with rfl | ⟨es, hc, rfl⟩ <;> rfl

theorem RewriteOnlyMsg.eq_of_str {m m2 : Msg} (h : RewriteOnlyMsg m m2) (s : String)
    (hs : m.content = .str s) : m2 = m := by
  rcases h with rfl | ⟨es, hc, rfl⟩
  · rfl
  · rw [hs] at hc; cases hc

theorem cleanRev_forall2 (b : Int) (l : List Msg) :
    List.Forall₂ RewriteOnlyMsg l (cleanRev b l) := by
  induction l generalizing b with
  | nil => exact List.Forall₂.nil
  | cons m rest ih =>
    cases hc : m.content with
    | blocks es =>
      by_cases hb : b - 1 < 0
      · simp only [cleanRev, hc, hb, if_true]
        exact List.Forall₂.cons (Or.inr ⟨es, hc, rfl⟩) (ih _)
      · simp only [cleanRev, hc, hb, if_false]
        exact List.Forall₂.cons (Or.inl rfl) (ih _)
    | str s =>
      simp only [cleanRev, hc]
      exact List.Forall₂.cons (Or.inl rfl) (ih _)
    | omitted =>
      simp only [cleanRev, hc]
      exact List.Forall₂.cons (Or.inl rfl) (ih _)

theorem clean_messages_forall2 (ms : List Msg) :
    List.Forall₂ RewriteOnlyMsg ms (clean_messages ms) := by
  have h := cleanRev_forall2 2 ms.reverse
  have h2 := List.forall₂_reverse_iff.mpr h
  rw [List.reverse_reverse] at h2
  exact h2

theorem forall2_roles : ∀ (l l2 : List Msg), List.Forall₂ RewriteOnlyMsg l l2 →
    l2.map Msg.role = l.map Msg.role := by
  intro l l2 h
  induction h with
  | nil => rfl
  | cons hr _ ih => simp [List.map_cons, hr.role_eq, ih]

theorem clean_messages_roles (ms : List Msg) :
    (clean_messages ms).map Msg.role = ms.map Msg.role :=
  forall2_roles ms (clean_messages ms) (clean_messages_forall2 ms)

theorem clean_countP_system (ms : List Msg) :
    (clean_messages ms).countP (fun m => m.role == "system")
      = ms.countP (fun m => m.role == "system") := by
  have e1 : ∀ (l : List Msg), l.countP (fun m => m.role == "system")
      = (l.map Msg.role).countP (fun s => s == "system") := by
    intro l; rw [List.countP_map]; rfl
  rw [e1, e1, clean_messages_roles]

theorem forall2_head_str (l l2 : List Msg) (h : List.Forall₂ RewriteOnlyMsg l l2)
    (m : Msg) (s : String) (hm : l.head? = some m) (hs : m.content = .str s) :
    l2.head? = some m := by
  cases h with
  | nil => simp at hm
  | cons hr htl =>
    simp only [List.head?_cons, Option.some.injEq] at hm
    subst hm
    simp [List.head?_cons, hr.eq_of_str s hs]

theorem clean_head_str (ms : List Msg) (m : Msg) (s : String)
    (hm : ms.head? = some m) (hs : m.content = .str s) :
    (clean_messages ms).head? = some m :=
  forall2_head_str ms (clean_messages ms) (clean_messages_forall2 ms) m s hm hs

theorem SysInv_clean (sys : String) (ms : List Msg) (h : SysInv sys ms) :
    SysInv sys (clean_messages ms) :=
  ⟨clean_head_str ms _ sys h.1 rfl, by rw [clean_countP_system]; exact h.2⟩

theorem countP_toolMsgs (results : List ToolResult) :
    (results.map toolMsg).countP (fun m => m.role == "system") = 0 := by
  induction results with
  | nil => rfl
  | cons r rest ih => simp [toolMsg, List.countP_cons, ih]

theorem SysInv_append (sys : String) (ms : List Msg) (h : SysInv sys ms) (r : Resp)
    (results : List ToolResult) :
    SysInv sys (clean_messages ms ++ assistantMsg r :: results.map toolMsg) := by
  have hc := SysInv_clean sys ms h
  constructor
  · cases hcl : clean_messages ms with
    | nil => rw [hcl] at hc; exact absurd hc.1 (by simp)
    | cons a l =>
      have := hc.1
      rw [hcl] at this
      simp only [List.head?_cons, Option.some.injEq] at this
      simp [List.cons_append, List.head?_cons, this]
  · rw [List.countP_append, hc.2, List.countP_cons, countP_toolMsgs]
    simp [assistantMsg]

theorem loop_reachable (cod : Codecs) (dev : Device) (sys : String) :
    ∀ (script : List Resp) (msgs : List Msg) (acc : List (List Msg)),
      (∀ t ∈ acc, SysInv sys t) → SysInv sys msgs →
      ∀ t ∈ reachableOf (call_llm_loop cod dev script msgs acc), SysInv sys t := by
  intro script
  induction script with
  | nil =>
    intro msgs acc hacc hm t ht
    simp only [call_llm_loop, reachableOf, List.mem_append, List.mem_singleton] at ht
    rcases ht with ht | rfl
    · exact hacc t ht
    · exact hm
  | cons r rest ih =>
    intro msgs acc hacc hm t ht
    unfold call_llm_loop at ht
    cases hr : r.tool_calls with
    | nil =>
      rw [hr] at ht
      simp only [reachableOf, List.mem_append, List.mem_singleton] at ht
      rcases ht with (ht | rfl) | rfl
      · exact hacc t ht
      · exact hm
      · exact SysInv_clean sys msgs hm
    | cons tc tcs =>
      rw [hr] at ht
      dsimp only at ht
      rcases hh : handle_tool_calls cod dev (tc :: tcs) with ⟨res, ev⟩
      rw [hh] at ht
      cases res with
      | error e =>
        simp only [reachableOf, List.mem_append, List.mem_singleton] at ht
        rcases ht with ht | rfl
        · exact hacc t ht
        · exact hm
      | ok results =>
        refine ih _ (acc ++ [msgs]) ?_ (SysInv_append sys msgs hm r results) t ht
        intro t2 ht2
        rcases List.mem_append.mp ht2 with ht2 | ht2
        · exact hacc t2 ht2
        · rw [List.mem_singleton.mp ht2]; exact hm

/-- C8: every transcript reachable in a run started from the initial
system-plus-user transcript keeps the untouched system turn first and
contains no other system turn; and pruning relates input to output
pointwise (same length, same order, each turn either unchanged or its list
content filtered), so it never removes, reorders, or retags a turn. -/
theorem transcript_invariants (cod : Codecs) (dev : Device) (script : List Resp)
    (sys user : String) :
    (∀ t ∈ reachableOf (call_llm cod dev script (initMessages sys user)), SysInv sys t) ∧
    (∀ ms, List.Forall₂ RewriteOnlyMsg ms (clean_messages ms)) := by
  constructor
  · intro t ht
    refine loop_reachable cod dev sys script (initMessages sys user) [] (by simp) ?_ t ht
    exact ⟨rfl, rfl⟩
  · exact clean_messages_forall2

/-- Witness for C8 at a concrete empty-script run and the empty transcript. -/
theorem transcript_invariants_witness :
    SysInv "SYS" (initMessages "SYS" "USR") ∧
    List.Forall₂ RewriteOnlyMsg ([] : List Msg) (clean_messages []) :=
  ⟨(transcript_invariants cod0 okDev [] "SYS" "USR").1 (initMessages "SYS" "USR")
      (by simp [call_llm, call_llm_loop, reachableOf]),
   (transcript_invariants cod0 okDev [] "SYS" "USR").2 []⟩

/-- C6: against a scripted backend that first requests one `click` call
and then answers with text only, the loop performs exactly one dispatch
cycle (two backend calls), appends exactly one assistant turn followed by
one tool turn tagged with the call's identifier, and terminates returning
the scripted final text. -/
theorem scripted_click_run (cod : Codecs) (dev : Device) (h : DevTotal dev)
    (sys user : String) :
    ∃ bs : List Entry,
      call_llm cod dev oneClickScript (initMessages sys user) =
        .done (some "final answer")
          (initMessages sys user ++
            [assistantMsg ⟨some "plan", [clickCall "c1" 1 2]⟩,
             { role := "tool", content := .blocks bs, tool_call_id := some "c1",
               tool_calls := [] }])
          [initMessages sys user,
           initMessages sys user ++
            [assistantMsg ⟨some "plan", [clickCall "c1" 1 2]⟩,
             { role := "tool", content := .blocks bs, tool_call_id := some "c1",
               tool_calls := [] }]] := by
  obtain ⟨otap, htap⟩ := h ["input", "tap", valueStr (.intV 1), valueStr (.intV 2)]
  obtain ⟨oscr, hscr⟩ := h ["screencap", "-p"]
  obtain ⟨odmp, hdmp⟩ := h ["uiautomator", "dump", "/sdcard/window_dump.xml"]
  obtain ⟨ocat, hcat⟩ := h ["cat", "/sdcard/window_dump.xml"]
  have hrc : runCall cod dev
        ⟨"c1", ⟨"click", some (.valid [("x", .intV 1), ("y", .intV 2)])⟩⟩ =
      (.ok ("Clicked at coordinates (" ++ valueStr (.intV 1) ++ ", "
            ++ valueStr (.intV 2) ++ ")"),
       [.cmd ["input", "tap", valueStr (.intV 1), valueStr (.intV 2)]]) := by
    simp +decide [runCall, getArgs, argGet, List.lookup, bindE_pure,
      bind_eq_bindE, pure_eq_pureE, run_shell_ok dev _ _ htap, bindE_ok, pureE]
  have hdisp : dispatchCalls cod dev [clickCall "c1" 1 2] =
      (.ok [⟨"c1", "Clicked at coordinates (" ++ valueStr (.intV 1) ++ ", "
            ++ valueStr (.intV 2) ++ ")"⟩],
       [.cmd ["input", "tap", valueStr (.intV 1), valueStr (.intV 2)]]) := by
    simp [dispatchCalls, hrc, clickCall]
  have hts : take_screenshot cod dev =
      (.ok (cod.b64encode (cod.process_screenshot_bytes oscr)),
       [.cmd ["screencap", "-p"]]) := by
    simp [take_screenshot, bind_eq_bindE, pure_eq_pureE, run_shell_ok dev _ _ hscr,
      bindE_ok, pureE]
  have hui : get_ui_hierarchy cod dev true =
      (.ok (cod.clean_hierarchy ocat),
       [.cmd ["uiautomator", "dump", "/sdcard/window_dump.xml"],
        .cmd ["cat", "/sdcard/window_dump.xml"]]) := by
    simp [get_ui_hierarchy, bind_eq_bindE, pure_eq_pureE, run_shell_ok dev _ _ hdmp,
      run_shell_ok dev _ _ hcat, bindE_ok, pureE]
  have hh : handle_tool_calls cod dev [clickCall "c1" 1 2] =
      (.ok [augR (cod.b64encode (cod.process_screenshot_bytes oscr))
              (cod.clean_hierarchy ocat)
              ⟨"c1", "Clicked at coordinates (" ++ valueStr (.intV 1) ++ ", "
               ++ valueStr (.intV 2) ++ ")"⟩],
       [.cmd ["input", "tap", valueStr (.intV 1), valueStr (.intV 2)],
        .cmd ["screencap", "-p"],
        .cmd ["uiautomator", "dump", "/sdcard/window_dump.xml"],
        .cmd ["cat", "/sdcard/window_dump.xml"]]) := by
    simp [handle_tool_calls, hdisp, hts, hui]
  refine ⟨[.image (cod.b64encode (cod.process_screenshot_bytes oscr)),
           .text (UI_HIERARCHY_PROMPT ++ cod.clean_hierarchy ocat),
           .text ("Clicked at coordinates (" ++ valueStr (.intV 1) ++ ", "
                  ++ valueStr (.intV 2) ++ ")")], ?_⟩
  simp +decide [call_llm, call_llm_loop, oneClickScript, hh, clean_messages, cleanRev,
    initMessages, assistantMsg, toolMsg, augR]

/-- Witness for C6 at the always-succeeding device. -/
theorem scripted_click_run_witness :
    ∃ bs : List Entry,
      call_llm cod0 okDev oneClickScript (initMessages "SYS" "USR") =
        .done (some "final answer")
          (initMessages "SYS" "USR" ++
            [assistantMsg ⟨some "plan", [clickCall "c1" 1 2]⟩,
             { role := "tool", content := .blocks bs, tool_call_id := some "c1",
               tool_calls := [] }])
          [initMessages "SYS" "USR",
           initMessages "SYS" "USR" ++
            [assistantMsg ⟨some "plan", [clickCall "c1" 1 2]⟩,
             { role := "tool", content := .blocks bs, tool_call_id := some "c1",
               tool_calls := [] }]] :=
  scripted_click_run cod0 okDev (fun _ => ⟨"", rfl⟩) "SYS" "USR"

end Gosling
